import Mathlib

/-!
# Verification of the barebones-node-server routing core

This file is a shallow embedding, in Lean 4, of the routing-and-dispatch
engine of the repository (the `Router` class: registration, path
normalization, parameter extraction, pattern compilation, matching, and
the middleware / param-hook / handler pipeline), together with theorems
settling the specification's claims about it.

Modelling conventions:

* JS strings are modelled as Lean `String` (operated on through their
  `List Char` data where that keeps the embedding transparent).
* The compiled route regex is modelled as a token list (`Tok`): the
  source builds the regex string by replacing each occurrence of
  the pattern slash-colon-word-run by a slash plus a capturing group
  matching one or more non-slash characters, and each star by dot-star;
  the token list is the exact image of that regex string
  (a capturing non-slash-run group becomes `Tok.group`, dot-star becomes
  `Tok.wild`, every other character becomes `Tok.lit`).  Token matching
  `tokMatch` implements the backtracking semantics of the anchored
  regex (greedy quantifiers, longest alternative first), so the model
  is faithful for paths made of regex-literal characters; paths
  containing regex metacharacters (parentheses, brackets, dot, ...)
  are outside the modelled fragment.
* Handlers (route handlers, middleware handlers, param hooks) are
  opaque: route handlers and hooks are identified by a `Nat` id, and a
  middleware entry carries the JS value its handler returns for the
  request being dispatched (`JsValue`), since only that value steers
  the pipeline.  `Router.handle` returns the trace of observable
  events (middleware executions, hook executions, handler execution,
  or the synthesized 404 response) in execution order.
* JS exceptions at registration are modelled with `Except`: the error
  branch returns no router, mirroring that the JS `throw` happens
  before any mutation of the route table.
-/

namespace BareboneServer

/-- JS single-character split: the model of `str.split(sep)`.
`jsSplit sep []` is `[[]]` because in JS the empty string splits to one
empty piece. -/
def jsSplit (sep : Char) : List Char → List (List Char)
  | [] => [[]]
  | c :: rest =>
    let r := jsSplit sep rest
    if c == sep then [] :: r
    else (c :: r.headD []) :: r.tail

/-- JS `toUpperCase` restricted to ASCII (method strings are ASCII). -/
def toUpperCase (s : String) : String := String.mk (s.data.map Char.toUpper)

/-- Model of the normalization body of the source's `normalizePath`:
prepend a slash when absent (`startsWith`/string concat), then strip a
single trailing slash (`slice(0,-1)` = `dropLast`) unless the path is
exactly the root. -/
def normalizeChars (path : List Char) : List Char :=
  let p := if path.head? == some '/' then path else '/' :: path
  if p != ['/'] && p.getLast? == some '/' then p.dropLast else p

/-- The source's `Router.normalizePath`. -/
def normalizePath (path : String) : String := String.mk (normalizeChars path.data)

/-- The source's `Router.extractParams` over char lists: split on slash,
keep segments starting with a colon, record the remainder of each. -/
def extractParamsChars (path : List Char) : List (List Char) :=
  ((jsSplit '/' path).filter (fun seg => seg.head? == some ':')).map (fun seg => seg.drop 1)

/-- The source's `Router.extractParams`. -/
def extractParams (path : String) : List String :=
  (extractParamsChars path.data).map String.mk

/-- JS word character (regex backslash-w): ASCII letters, digits, underscore. -/
def isWordChar (c : Char) : Bool := c.isAlpha || c.isDigit || c == '_'

/-- A token of the compiled route pattern: a literal character, a
capturing group matching one or more non-slash characters (the image of
a slash-colon-name segment), or a non-capturing any-run (the image of a
star). -/
inductive Tok where
  | lit (c : Char)
  | group
  | wild
deriving Repr, DecidableEq

/-- The source's `pathToRegex` replacement pass, written as the direct
left-to-right scan the two global JS `replace` calls perform: an
occurrence of slash, colon, then a nonempty maximal word-character run
becomes a literal slash plus a capturing group; every star becomes the
wildcard token; every other character stays literal.  (The sequential
replaces equal one scan because the replacement texts contain neither a
slash-colon-word occurrence nor a star; and after a failed slash-colon
attempt the next possible occurrence again begins at a slash, so
emitting the slash as a literal and rescanning from the colon is
exact.)  This transcription uses well-founded recursion, so
`scanToks` below re-expresses the same scan as a structural state
machine, proved equal in `scanM_s0_eq_scanSpec`. -/
def scanSpec : List Char → List Tok
  | '/' :: ':' :: c :: rest =>
    if isWordChar c then
      Tok.lit '/' :: Tok.group :: scanSpec (rest.dropWhile isWordChar)
    else
      Tok.lit '/' :: scanSpec (':' :: c :: rest)
  | '*' :: rest => Tok.wild :: scanSpec rest
  | c :: rest => Tok.lit c :: scanSpec rest
  | [] => []
termination_by l => l.length
decreasing_by
  · simp only [List.length_cons]
    have := (List.dropWhile_sublist (l := rest) isWordChar).length_le
    omega
  · simp only [List.length_cons]; omega
  · simp only [List.length_cons]; omega
  · simp only [List.length_cons]; omega

/-- Scanner state for the structural formulation of the replacement
pass: at a fresh position (`s0`), just after an unconsumed slash
(`sSlash`), just after an unconsumed slash-colon (`sSlashColon`), or
inside the word-character run of a parameter name already absorbed into
a capturing group (`sName`). -/
inductive ScanState where
  | s0
  | sSlash
  | sSlashColon
  | sName
deriving Repr, DecidableEq

/-- One-character-per-step state machine computing the same token list
as `scanSpec` (see `scanM_s0_eq_scanSpec`): pending slash / slash-colon
characters are emitted as literals as soon as the lookahead fails, a
slash always reopens a potential slash-colon-name occurrence, and word
characters inside a name emit nothing. -/
def scanM : ScanState → List Char → List Tok
  | .s0, [] => []
  | .sSlash, [] => [.lit '/']
  | .sSlashColon, [] => [.lit '/', .lit ':']
  | .sName, [] => []
  | .s0, '/' :: rest => scanM .sSlash rest
  | .s0, '*' :: rest => .wild :: scanM .s0 rest
  | .s0, c :: rest => .lit c :: scanM .s0 rest
  | .sSlash, ':' :: rest => scanM .sSlashColon rest
  | .sSlash, '/' :: rest => .lit '/' :: scanM .sSlash rest
  | .sSlash, '*' :: rest => .lit '/' :: .wild :: scanM .s0 rest
  | .sSlash, c :: rest => .lit '/' :: .lit c :: scanM .s0 rest
  | .sSlashColon, '/' :: rest => .lit '/' :: .lit ':' :: scanM .sSlash rest
  | .sSlashColon, '*' :: rest => .lit '/' :: .lit ':' :: .wild :: scanM .s0 rest
  | .sSlashColon, c :: rest =>
    if isWordChar c then .lit '/' :: .group :: scanM .sName rest
    else .lit '/' :: .lit ':' :: .lit c :: scanM .s0 rest
  | .sName, '/' :: rest => scanM .sSlash rest
  | .sName, '*' :: rest => .wild :: scanM .s0 rest
  | .sName, c :: rest =>
    if isWordChar c then scanM .sName rest else .lit c :: scanM .s0 rest

/-- The token-list scan of a whole path (structural form). -/
def scanToks (l : List Char) : List Tok := scanM .s0 l

/-- Unfolding: a slash-colon-word occurrence compiles to a slash and a
capturing group, consuming the word run. -/
theorem scanSpec_slash_colon_word (c : Char) (rest : List Char)
    (h : isWordChar c = true) :
    scanSpec ('/' :: ':' :: c :: rest) =
      .lit '/' :: .group :: scanSpec (rest.dropWhile isWordChar) := by
  rw [scanSpec]; simp [h]

/-- Unfolding: a slash-colon not followed by a word character fails the
occurrence; the slash is emitted and scanning resumes at the colon. -/
theorem scanSpec_slash_colon_nonword (c : Char) (rest : List Char)
    (h : isWordChar c = false) :
    scanSpec ('/' :: ':' :: c :: rest) = .lit '/' :: scanSpec (':' :: c :: rest) := by
  rw [scanSpec]; simp [h]

/-- Unfolding: a star compiles to the wildcard token. -/
theorem scanSpec_star (rest : List Char) :
    scanSpec ('*' :: rest) = .wild :: scanSpec rest := by
  rw [scanSpec]

/-- Unfolding: any character other than a star that does not open a
slash-colon-word occurrence stays literal. -/
theorem scanSpec_cons (c : Char) (rest : List Char) (h1 : c ≠ '/') (h2 : c ≠ '*') :
    scanSpec (c :: rest) = .lit c :: scanSpec rest := by
  rw [scanSpec.eq_def]
  cases rest with
  | nil => simp [h1, h2]
  | cons d r =>
    cases r with
    | nil => simp [h1, h2]
    | cons e r' => simp [h1, h2]

/-- Unfolding: a slash not followed by a colon stays literal. -/
theorem scanSpec_slash_cons (d : Char) (rest : List Char) (hd : d ≠ ':') :
    scanSpec ('/' :: d :: rest) = .lit '/' :: scanSpec (d :: rest) := by
  rw [scanSpec.eq_def]
  cases rest with
  | nil => simp [hd]
  | cons e r' => simp [hd]

/-- In the name-skipping state the machine behaves exactly as a fresh
scan of the input with its leading word run removed. -/
theorem scanM_sName (l : List Char) :
    scanM .sName l = scanM .s0 (l.dropWhile isWordChar) := by
  induction l with
  | nil => rfl
  | cons c rest ih =>
    by_cases hw : isWordChar c
    · have h1 : c ≠ '/' := by rintro rfl; simp [isWordChar] at hw
      have h2 : c ≠ '*' := by rintro rfl; simp [isWordChar] at hw
      rw [List.dropWhile_cons_of_pos hw]
      rw [show scanM .sName (c :: rest) = scanM .sName rest from by
        rw [scanM.eq_def]; simp [h1, h2, hw]]
      exact ih
    · rw [List.dropWhile_cons_of_neg hw]
      by_cases h1 : c = '/'
      · subst h1; rfl
      · by_cases h2 : c = '*'
        · subst h2; rfl
        · rw [show scanM .sName (c :: rest) = .lit c :: scanM .s0 rest from by
            rw [scanM.eq_def]; simp [h1, h2, hw]]
          rw [show scanM .s0 (c :: rest) = .lit c :: scanM .s0 rest from by
            rw [scanM.eq_def]; simp [h1, h2]]

/-- The structural scanner computes the direct transcription of the
source's replacement pass. -/
theorem scanM_s0_eq_scanSpec (l : List Char) : scanM .s0 l = scanSpec l := by
  generalize hn : l.length = n
  induction n using Nat.strong_induction_on generalizing l with
  | _ n ih =>
  cases l with
  | nil => simp [scanSpec, scanM]
  | cons c rest =>
    by_cases hc : c = '/'
    · subst hc
      cases rest with
      | nil => simp [scanSpec, scanM]
      | cons d rest' =>
        by_cases hd : d = ':'
        · subst hd
          cases rest' with
          | nil => simp [scanSpec, scanM]
          | cons e rest'' =>
            by_cases he : isWordChar e
            · rw [scanSpec_slash_colon_word e rest'' he]
              have h1 : e ≠ '/' := by rintro rfl; simp [isWordChar] at he
              have h2 : e ≠ '*' := by rintro rfl; simp [isWordChar] at he
              have hlt : (rest''.dropWhile isWordChar).length < n := by
                have := (List.dropWhile_sublist (l := rest'') isWordChar).length_le
                simp only [List.length_cons] at hn; omega
              rw [← ih _ hlt _ rfl, ← scanM_sName]
              simp [scanM, h1, h2, he]
            · rw [scanSpec_slash_colon_nonword e rest''
                (Bool.eq_false_iff.mpr he)]
              by_cases h1 : e = '/'
              · subst h1
                rw [scanSpec_cons ':' ('/' :: rest'') (by decide) (by decide)]
                have hlt : ('/' :: rest'').length < n := by
                  simp only [List.length_cons] at hn ⊢; omega
                rw [← ih _ hlt _ rfl]
                rfl
              · by_cases h2 : e = '*'
                · subst h2
                  rw [scanSpec_cons ':' ('*' :: rest'') (by decide) (by decide),
                    scanSpec_star]
                  have hlt : rest''.length < n := by
                    simp only [List.length_cons] at hn; omega
                  rw [← ih _ hlt _ rfl]
                  rfl
                · rw [scanSpec_cons ':' (e :: rest'') (by decide) (by decide),
                    scanSpec_cons e rest'' h1 h2]
                  have hlt : rest''.length < n := by
                    simp only [List.length_cons] at hn; omega
                  rw [← ih _ hlt _ rfl]
                  simp [scanM, h1, h2, he]
        · rw [scanSpec_slash_cons d rest' hd]
          by_cases h1 : d = '/'
          · subst h1
            have hlt : ('/' :: rest').length < n := by
              simp only [List.length_cons] at hn ⊢; omega
            rw [← ih _ hlt _ rfl]
            rfl
          · by_cases h2 : d = '*'
            · subst h2
              rw [scanSpec_star]
              have hlt : rest'.length < n := by
                simp only [List.length_cons] at hn; omega
              rw [← ih _ hlt _ rfl]
              rfl
            · rw [scanSpec_cons d rest' h1 h2]
              have hlt : rest'.length < n := by
                simp only [List.length_cons] at hn; omega
              rw [← ih _ hlt _ rfl]
              simp [scanM, h1, h2, hd]
    · by_cases hs : c = '*'
      · subst hs
        rw [scanSpec_star]
        have hlt : rest.length < n := by
          simp only [List.length_cons] at hn; omega
        rw [← ih _ hlt _ rfl]
        rfl
      · rw [scanSpec_cons c rest hc hs]
        have hlt : rest.length < n := by
          simp only [List.length_cons] at hn; omega
        rw [← ih _ hlt _ rfl]
        simp [scanM, hc, hs]

/-- The source's `Router.pathToRegex` (the compiled matcher, anchored at
both ends; anchoring is implicit in `tokMatch` matching the whole
string). -/
def pathToRegex (path : String) : List Tok := scanToks path.data

/-- JS regex dot: any character except the four line terminators. -/
def jsDot (c : Char) : Bool :=
  c != '\n' && c != '\r' && c.toNat != 0x2028 && c.toNat != 0x2029

/-- Anchored backtracking match of a token list against a path,
returning the list of captured substrings (one per `Tok.group`, in
order) on success.  Greedy semantics: a group tries the longest
non-slash run first, the wildcard tries the longest dot-run first, and
the first success wins — exactly the JS engine's backtracking order for
the regexes `pathToRegex` produces. -/
def tokMatch : List Tok → List Char → Option (List (List Char))
  | [], s => if s == [] then some [] else none
  | Tok.lit c :: ts, s =>
    match s with
    | [] => none
    | x :: xs => if x == c then tokMatch ts xs else none
  | Tok.group :: ts, s =>
    let n := (s.takeWhile (fun c => c != '/')).length
    ((List.range n).reverse.map (· + 1)).findSome? (fun k =>
      (tokMatch ts (s.drop k)).map (fun caps => s.take k :: caps))
  | Tok.wild :: ts, s =>
    let n := (s.takeWhile jsDot).length
    (List.range (n + 1)).reverse.findSome? (fun k => tokMatch ts (s.drop k))

/-- Number of capturing groups of a compiled matcher. -/
def countGroups (ts : List Tok) : Nat := (ts.filter (· == Tok.group)).length

/-- JS `Map.has` over the insertion-ordered entry list. -/
def mapHas {α : Type} (m : List (String × α)) (k : String) : Bool :=
  m.any (fun e => e.1 == k)

/-- JS `Map.get` over the insertion-ordered entry list. -/
def mapGet {α : Type} : List (String × α) → String → Option α
  | [], _ => none
  | (k', v) :: rest, k => if k' == k then some v else mapGet rest k

/-- JS `Map.set`: updating an existing key keeps its position, a new key
is appended. -/
def mapSet {α : Type} : List (String × α) → String → α → List (String × α)
  | [], k, v => [(k, v)]
  | (k', v') :: rest, k, v =>
    if k' == k then (k, v) :: rest else (k', v') :: mapSet rest k v

/-- A stored route: handler id, declared parameter names in order, and
the compiled matcher (the source's `{handler, params, regex}`). -/
structure Route where
  handler : Nat
  params : List String
  regex : List Tok
deriving Repr, DecidableEq

/-- The JS value a middleware handler returns (only its identity with
the boolean false matters to the pipeline). -/
inductive JsValue where
  | vBool (b : Bool)
  | vUndefined
  | vNull
  | vNum (n : Int)
  | vStr (s : String)
deriving Repr, DecidableEq

/-- A middleware entry: its path pattern, and the value its handler
returns for the dispatched request. -/
structure Middleware where
  path : String
  ret : JsValue
deriving Repr, DecidableEq

/-- The router state: insertion-ordered route table keyed by
method-colon-path, the middleware list, and the insertion-ordered param
hook table (hook ids). -/
structure Router where
  routes : List (String × Route)
  middlewares : List Middleware
  paramHandlers : List (String × Nat)
deriving Repr, DecidableEq

/-- The source's `Router.add`: normalize, build the key, fail when the
key exists (the JS `throw` precedes any mutation, hence the error branch
returns no router and the table is untouched), else append the compiled
route. -/
def Router.add (r : Router) (method path : String) (handler : Nat) :
    Except String Router :=
  let normalizedPath := normalizePath path
  let key := toUpperCase method ++ ":" ++ normalizedPath
  if mapHas r.routes key then
    .error ("Route " ++ method ++ " " ++ path ++ " already exists")
  else
    .ok { r with
      routes := r.routes ++
        [(key, ⟨handler, extractParams normalizedPath, pathToRegex normalizedPath⟩)] }

/-- The source's `Router.get` convenience wrapper. -/
def Router.get (r : Router) (path : String) (handler : Nat) : Except String Router :=
  r.add "GET" path handler

/-- The source's `Router.post` convenience wrapper. -/
def Router.post (r : Router) (path : String) (handler : Nat) : Except String Router :=
  r.add "POST" path handler

/-- The source's `Router.use` with an explicit path: appends one entry
per handler, preserving order. -/
def Router.use (r : Router) (path : String) (handlers : List JsValue) : Router :=
  { r with middlewares := r.middlewares ++ handlers.map (fun h => ⟨path, h⟩) }

/-- The source's `Router.use` called with a bare function: implicit
pattern is the catch-all. -/
def Router.useFn (r : Router) (handler : JsValue) : Router :=
  { r with middlewares := r.middlewares ++ [⟨"/*", handler⟩] }

/-- The source's `Router.param`: single slot per name (JS `Map.set`). -/
def Router.param (r : Router) (name : String) (handler : Nat) : Router :=
  { r with paramHandlers := mapSet r.paramHandlers name handler }

/-- A match result: the matched route's handler and the params object,
modelled as the ordered list of its property assignments; a value of
`none` models the JS `undefined` assigned when the capture index is
beyond the match array. -/
structure MatchResult where
  handler : Nat
  params : List (String × Option String)
deriving Repr, DecidableEq

/-- Reading property `key` of the params object: the last assignment to
the key wins; `none` when the key was never assigned. -/
def objGet : List (String × Option String) → String → Option (Option String)
  | [], _ => none
  | (k, v) :: rest, key =>
    match objGet rest key with
    | some w => some w
    | none => if k == key then some v else none

/-- The params object built by the source's
`route.params.forEach((param, index) => params[param] = match[index+1])`. -/
def buildParams (names : List String) (caps : List (List Char)) :
    List (String × Option String) :=
  names.enum.map (fun p => (p.2, (caps[p.1]?).map String.mk))

/-- The source's `Router.match` (`findMatch` here since `match` is a
Lean keyword): exact-key lookup first (empty params), then a scan of the
route table in insertion order, skipping entries whose key's first
colon-separated field differs from the uppercased method, returning the
first route whose compiled matcher accepts the path. -/
def Router.findMatch (r : Router) (method urlPath : String) : Option MatchResult :=
  let methodUpper := toUpperCase method
  let exactKey := methodUpper ++ ":" ++ urlPath
  match mapGet r.routes exactKey with
  | some route => some ⟨route.handler, []⟩
  | none =>
    r.routes.findSome? (fun kr =>
      let routeMethod := (jsSplit ':' kr.1.data).headD []
      if routeMethod == methodUpper.data then
        match tokMatch kr.2.regex urlPath.data with
        | some caps => some ⟨kr.2.handler, buildParams kr.2.params caps⟩
        | none => none
      else none)

/-- An observable event of one dispatch: a middleware handler ran (its
position in the middleware list), a param hook ran (name and bound
value), the route handler ran, or the 404 response was written (status,
content-type header, body). -/
inductive Event where
  | mwRun (index : Nat)
  | hookRun (name : String) (value : String)
  | handlerRun (handler : Nat)
  | respond404 (status : Nat) (contentType : String) (body : String)
deriving Repr, DecidableEq

/-- Hex digit (lowercase) used by the JSON unicode escape. -/
def hexDigit (n : Nat) : Char :=
  if n < 10 then Char.ofNat (48 + n) else Char.ofNat (87 + n)

/-- JSON string-character escaping as performed by `JSON.stringify`. -/
def jsonEscapeChar (c : Char) : List Char :=
  if c == '"' then ['\\', '"']
  else if c == '\\' then ['\\', '\\']
  else if c == '\x08' then ['\\', 'b']
  else if c == '\x09' then ['\\', 't']
  else if c == '\x0a' then ['\\', 'n']
  else if c == '\x0c' then ['\\', 'f']
  else if c == '\x0d' then ['\\', 'r']
  else if c.toNat < 32 then
    ['\\', 'u', '0', '0', hexDigit (c.toNat / 16), hexDigit (c.toNat % 16)]
  else [c]

/-- The rendering `JSON.stringify` gives a string value. -/
def jsonQuote (s : String) : List Char :=
  '"' :: s.data.flatMap jsonEscapeChar ++ ['"']

/-- The 404 body the source builds:
`JSON.stringify({error: "Not Found", message: \x7bRoute <pathname> not found\x7d})`
— object fields serialize in literal order, `error` then `message`. -/
def notFoundBody (pathname : String) : String :=
  String.mk ("\x7b\"error\":\"Not Found\",\"message\":".data
    ++ jsonQuote ("Route " ++ pathname ++ " not found") ++ "\x7d".data)

/-- Whether a middleware applies to the request path: the source
compiles `normalizePath(mw.path)` with `pathToRegex` and runs
`regex.test(pathname)`; the regex is anchored, so `test` is a full
match. -/
def mwApplies (mw : Middleware) (pathname : String) : Bool :=
  (tokMatch (pathToRegex (normalizePath mw.path)) pathname.data).isSome

/-- The middleware loop of `Router.handle`: run each applicable entry in
order; a handler returning exactly the JS boolean false aborts (second
component true), any other value continues.  Produces the trace of
middleware executions (by position) and the abort flag. -/
def runMiddlewares : List Middleware → String → Nat → List Event × Bool
  | [], _, _ => ([], false)
  | mw :: rest, pathname, index =>
    if mwApplies mw pathname then
      if mw.ret == JsValue.vBool false then
        ([Event.mwRun index], true)
      else
        let r := runMiddlewares rest pathname (index + 1)
        (Event.mwRun index :: r.1, r.2)
    else
      runMiddlewares rest pathname (index + 1)

/-- JS truthiness of `match.params[name]`: the property must exist, be
defined, and be a non-empty string; returns the value when truthy. -/
def truthyLookup (params : List (String × Option String)) (name : String) :
    Option String :=
  match objGet params name with
  | some (some v) => if v == "" then none else some v
  | _ => none

/-- The param-hook loop of `Router.handle`: for each entry of the hook
table in insertion order, run the hook when `match.params[name]` is
truthy, passing it that value. -/
def runHooks (hooks : List (String × Nat)) (params : List (String × Option String)) :
    List Event :=
  hooks.filterMap (fun h =>
    match truthyLookup params h.1 with
    | some v => some (Event.hookRun h.1 v)
    | none => none)

/-- The post-middleware phase of `Router.handle`: match, then hooks and
handler, or the synthesized 404 (status, content type, body built with
the raw pathname). -/
def dispatchRoute (r : Router) (method pathname : String) : List Event :=
  match r.findMatch method pathname with
  | some m => runHooks r.paramHandlers m.params ++ [Event.handlerRun m.handler]
  | none => [Event.respond404 404 "application/json" (notFoundBody pathname)]

/-- The source's `Router.handle` for one request, as the trace of
observable events.  `pathname` is the parsed URL's pathname exactly as
the source uses it (the source never normalizes it).  When a middleware
aborts, the trace ends there: no hooks, no handler, no 404. -/
def Router.handle (r : Router) (method pathname : String) : List Event :=
  let mwr := runMiddlewares r.middlewares pathname 0
  if mwr.2 then mwr.1
  else mwr.1 ++ dispatchRoute r method pathname

/-! ## Normalization lemmas (shared) -/

/-- The slash-prepending step always yields a list headed by a slash. -/
theorem ifSlash_head (l : List Char) :
    (if l.head? == some '/' then l else '/' :: l).head? = some '/' := by
  split
  · next h => simpa using h
  · rfl

/-- The slash-prepending step cannot introduce a double-slash suffix. -/
theorem ifSlash_no_double_suffix (l : List Char) (h : ¬ ['/', '/'] <:+ l) :
    ¬ ['/', '/'] <:+ (if l.head? == some '/' then l else '/' :: l) := by
  split
  · exact h
  · next hl =>
    intro hsfx
    rcases List.suffix_cons_iff.mp hsfx with heq | hs
    · have h2 : ['/'] = l := by injection heq
      exact hl (by rw [← h2]; rfl)
    · exact h hs

/-- The trailing-slash-stripping step keeps the leading slash. -/
theorem stripSlash_head (p : List Char) (hp : p.head? = some '/') :
    (if p != ['/'] && p.getLast? == some '/' then p.dropLast else p).head? =
      some '/' := by
  split
  · next hcond =>
    simp only [Bool.and_eq_true, bne_iff_ne, ne_eq, beq_iff_eq] at hcond
    obtain ⟨hne, hlast⟩ := hcond
    cases p with
    | nil => simp at hp
    | cons a t =>
      obtain rfl : a = '/' := by simpa using hp
      cases t with
      | nil => exact absurd rfl hne
      | cons b t' => rfl
  · exact hp

/-- After the stripping step the result is the root or has no trailing
slash, provided the input has no double-slash suffix. -/
theorem stripSlash_no_trailing (p : List Char) (hsafe : ¬ ['/', '/'] <:+ p) :
    (if p != ['/'] && p.getLast? == some '/' then p.dropLast else p) = ['/'] ∨
    (if p != ['/'] && p.getLast? == some '/' then p.dropLast else p).getLast? ≠
      some '/' := by
  split
  · next hcond =>
    simp only [Bool.and_eq_true, bne_iff_ne, ne_eq, beq_iff_eq] at hcond
    obtain ⟨hne, hlast⟩ := hcond
    by_contra hboth
    push_neg at hboth
    obtain ⟨hne2, hlast2⟩ := hboth
    obtain ⟨ys, rfl⟩ := List.getLast?_eq_some_iff.mp hlast
    rw [List.dropLast_concat] at hlast2 hne2
    obtain ⟨zs, rfl⟩ := List.getLast?_eq_some_iff.mp hlast2
    exact hsafe ⟨zs, by rw [List.append_assoc]; rfl⟩
  · next hcond =>
    by_cases hne : p = ['/']
    · exact Or.inl hne
    · right
      intro hlast
      exact hcond (by simp [hne, hlast])

/-- Every normalized path begins with a slash. -/
theorem head_normalizeChars (l : List Char) : (normalizeChars l).head? = some '/' := by
  dsimp only [normalizeChars]
  exact stripSlash_head _ (ifSlash_head l)

/-- A normalized path (of an input without a double-slash suffix) is the
root or has no trailing slash. -/
theorem normalizeChars_no_trailing (l : List Char) (h : ¬ ['/', '/'] <:+ l) :
    normalizeChars l = ['/'] ∨ (normalizeChars l).getLast? ≠ some '/' := by
  dsimp only [normalizeChars]
  exact stripSlash_no_trailing _ (ifSlash_no_double_suffix l h)

/-- Normalization fixes any list that is already in normal form. -/
theorem normalizeChars_of_normalized (q : List Char) (hhead : q.head? = some '/')
    (hq : q = ['/'] ∨ q.getLast? ≠ some '/') : normalizeChars q = q := by
  dsimp only [normalizeChars]
  rw [show (if q.head? == some '/' then q else '/' :: q) = q from by simp [hhead]]
  rcases hq with rfl | hlast
  · rfl
  · have hl : (q.getLast? == some '/') = false := by simpa using hlast
    simp [hl]

/-- Normalization is idempotent on inputs that do not end in two
slashes. -/
theorem normalizeChars_idem (l : List Char) (h : ¬ ['/', '/'] <:+ l) :
    normalizeChars (normalizeChars l) = normalizeChars l :=
  normalizeChars_of_normalized (normalizeChars l) (head_normalizeChars l)
    (normalizeChars_no_trailing l h)

/-! ## Claim C1 -/

/-- C1 is false on the code: with routes registered in order GET /*
then GET /users, Match("GET", "/users") returns the handler of the
second-registered route (20, the one for /users) via the exact-key fast
path — not the handler of the first-registered wildcard route (10), as
the claim requires. -/
theorem C1_counterexample :
    (((Router.mk [] [] []).add "GET" "/*" 10 >>= fun r =>
        r.add "GET" "/users" 20).toOption.map
      (fun r => (r.findMatch "GET" "/users").map MatchResult.handler)) =
        some (some 20) ∧
    (((Router.mk [] [] []).add "GET" "/*" 10 >>= fun r =>
        r.add "GET" "/users" 20).toOption.map
      (fun r => (r.findMatch "GET" "/users").map MatchResult.handler)) ≠
        some (some 10) := by
  constructor
  · rfl
  · decide

/-- C1 (amended): when the request path is itself a registered key, the
exact-string lookup answers first, regardless of registration order:
with routes GET /* then GET /users, Match("GET", "/users") returns the
/users handler; registration order decides only among pattern-scan
candidates, so a path matching no exact key (here "/other") goes to the
first-registered wildcard. -/
theorem C1_exact_key_wins (h₁ h₂ : Nat) (r₂ : Router)
    (hreg : ((Router.mk [] [] []).add "GET" "/*" h₁ >>= fun r =>
      r.add "GET" "/users" h₂) = .ok r₂) :
    r₂.findMatch "GET" "/users" = some ⟨h₂, []⟩ ∧
    r₂.findMatch "GET" "/other" = some ⟨h₁, []⟩ := by
  injection hreg with h
  subst h
  exact ⟨rfl, rfl⟩

/-- Witness for `C1_exact_key_wins` at handlers 10 and 20. -/
theorem C1_exact_key_wins_witness :
    (Router.mk
      [("GET:/*", ⟨10, [], [Tok.lit '/', Tok.wild]⟩),
       ("GET:/users", ⟨20, [], [Tok.lit '/', Tok.lit 'u', Tok.lit 's',
         Tok.lit 'e', Tok.lit 'r', Tok.lit 's']⟩)] [] []).findMatch
        "GET" "/users" = some ⟨20, []⟩ ∧
    (Router.mk
      [("GET:/*", ⟨10, [], [Tok.lit '/', Tok.wild]⟩),
       ("GET:/users", ⟨20, [], [Tok.lit '/', Tok.lit 'u', Tok.lit 's',
         Tok.lit 'e', Tok.lit 'r', Tok.lit 's']⟩)] [] []).findMatch
        "GET" "/other" = some ⟨10, []⟩ :=
  C1_exact_key_wins 10 20 _ (by rfl)

/-! ## Claim C2 -/

/-- C2 is false on the code: normalization strips only a single
trailing slash, so it is neither trailing-slash-free nor idempotent at
the input "/a//" — one application yields "/a/", which still ends in a
slash and normalizes further to "/a". -/
theorem C2_counterexample :
    normalizePath (normalizePath "/a//") ≠ normalizePath "/a//" ∧
    (normalizePath "/a//").data.getLast? = some '/' ∧
    normalizePath "/a//" ≠ "/" := by
  refine ⟨?_, rfl, ?_⟩ <;> decide

/-- C2 (amended): Normalize is total and always produces a path with a
leading slash; on every input that does not end in two consecutive
slashes (one application strips only a single trailing slash) it is
idempotent. -/
theorem C2_normalize_total_idem (p : String) (h : ¬ ['/', '/'] <:+ p.data) :
    (normalizePath p).data.head? = some '/' ∧
    normalizePath (normalizePath p) = normalizePath p := by
  constructor
  · exact head_normalizeChars p.data
  · show String.mk (normalizeChars (normalizeChars p.data)) = _
    rw [normalizeChars_idem p.data h]
    rfl

/-- Witness for `C2_normalize_total_idem` at the input "users/". -/
theorem C2_normalize_total_idem_witness :
    (normalizePath "users/").data.head? = some '/' ∧
    normalizePath (normalizePath "users/") = normalizePath "users/" :=
  C2_normalize_total_idem "users/" (by decide)

/-! ## Claim C3 -/

/-- C3: registering a (method, path) whose normalized key is already in
the table fails with the duplicate-route error.  In this embedding
registration returns `Except`, and the error branch of `Router.add`
returns no router at all — mirroring that the JS `throw` happens before
the `routes.set` call, so the original route's handler, parameter list
and matcher are untouched by the failed call. -/
theorem C3_duplicate_register (r : Router) (method path : String) (handler : Nat)
    (hdup : mapHas r.routes (toUpperCase method ++ ":" ++ normalizePath path) = true) :
    r.add method path handler =
      .error ("Route " ++ method ++ " " ++ path ++ " already exists") := by
  dsimp only [Router.add]
  rw [hdup]
  rfl

/-- Witness for `C3_duplicate_register`: a router already holding
GET:/users rejects a second registration of ("get", "/users/"), whose
key normalizes and uppercases to the same entry. -/
theorem C3_duplicate_register_witness :
    (Router.mk [("GET:/users", ⟨7, [], [Tok.lit '/', Tok.lit 'u', Tok.lit 's',
        Tok.lit 'e', Tok.lit 'r', Tok.lit 's']⟩)] [] []).add "get" "/users/" 8 =
      .error "Route get /users/ already exists" :=
  C3_duplicate_register _ "get" "/users/" 8 (by rfl)

/-! ## Claim C4 -/

/-- C4: for the single route GET /users/:id, Match("GET", "/users/42")
returns that route's handler with the parameter binding id ↦ "42"; and
a route compiled from /a/:x/b/:y matched against /a/1/b/2 binds the
captured values "1" and "2" positionally to the declared names x and y
in left-to-right order. -/
theorem C4_param_binding :
    (((Router.mk [] [] []).add "GET" "/users/:id" 5).toOption.map
      (fun r => r.findMatch "GET" "/users/42")) =
      some (some ⟨5, [("id", some "42")]⟩) ∧
    (((Router.mk [] [] []).add "GET" "/a/:x/b/:y" 7).toOption.map
      (fun r => r.findMatch "GET" "/a/1/b/2")) =
      some (some ⟨7, [("x", some "1"), ("y", some "2")]⟩) :=
  ⟨rfl, rfl⟩

/-! ## Middleware-pipeline lemmas (shared) -/

/-- The middleware phase only ever emits middleware-execution events. -/
theorem runMiddlewares_events (mws : List Middleware) (pathname : String) (i : Nat) :
    ∀ e ∈ (runMiddlewares mws pathname i).1, ∃ j, e = Event.mwRun j := by
  induction mws generalizing i with
  | nil => simp [runMiddlewares]
  | cons mw rest ih =>
    intro e he
    by_cases ha : mwApplies mw pathname
    · by_cases hr : (mw.ret == JsValue.vBool false) = true
      · simp only [runMiddlewares, ha, if_true, hr] at he
        simp only [List.mem_singleton] at he
        exact ⟨i, he⟩
      · simp only [runMiddlewares, ha, if_true, hr, if_false, Bool.false_eq_true,
          List.mem_cons] at he
        rcases he with rfl | he
        · exact ⟨i, rfl⟩
        · exact ih (i + 1) e he
    · have ha' : mwApplies mw pathname = false := by simpa using ha
      simp only [runMiddlewares, ha', Bool.false_eq_true, if_false] at he
      exact ih (i + 1) e he

/-- The middleware phase aborts exactly when some applicable middleware
returns the boolean false. -/
theorem runMiddlewares_abort_iff (mws : List Middleware) (pathname : String) (i : Nat) :
    (runMiddlewares mws pathname i).2 = true ↔
      ∃ mw ∈ mws, mwApplies mw pathname = true ∧ mw.ret = JsValue.vBool false := by
  induction mws generalizing i with
  | nil => simp [runMiddlewares]
  | cons mw rest ih =>
    rw [List.exists_mem_cons_iff]
    by_cases ha : mwApplies mw pathname
    · by_cases hr : mw.ret = JsValue.vBool false
      · simp [runMiddlewares, ha, hr]
      · have hr' : (mw.ret == JsValue.vBool false) = false := by
          rw [beq_eq_false_iff_ne]; exact hr
        simp [runMiddlewares, ha, hr', hr, ih]
    · have ha' : mwApplies mw pathname = false := by simpa using ha
      simp [runMiddlewares, ha', ih]

/-- Pinning the abort-case middleware trace: when the list decomposes
as a prefix with no applicable false-returning entry, then an
applicable entry returning false, then any suffix, the loop emits
exactly the prefix's events followed by the aborting entry's own event
and stops — nothing of the suffix runs. -/
theorem runMiddlewares_abort_split (pre : List Middleware) (mw : Middleware)
    (post : List Middleware) (pathname : String) (i : Nat)
    (hap : mwApplies mw pathname = true) (hret : mw.ret = JsValue.vBool false)
    (hpre : ∀ mw' ∈ pre, mwApplies mw' pathname = true →
      mw'.ret ≠ JsValue.vBool false) :
    runMiddlewares (pre ++ mw :: post) pathname i =
      ((runMiddlewares pre pathname i).1 ++ [Event.mwRun (i + pre.length)], true) := by
  induction pre generalizing i with
  | nil =>
    simp only [List.nil_append]
    rw [show runMiddlewares (mw :: post) pathname i =
        (if mwApplies mw pathname then
          (if mw.ret == JsValue.vBool false then ([Event.mwRun i], true)
           else
            (Event.mwRun i :: (runMiddlewares post pathname (i + 1)).1,
              (runMiddlewares post pathname (i + 1)).2))
         else runMiddlewares post pathname (i + 1)) from rfl]
    simp [hap, hret, runMiddlewares]
  | cons m pre' ih =>
    have hihyp : ∀ mw' ∈ pre', mwApplies mw' pathname = true →
        mw'.ret ≠ JsValue.vBool false :=
      fun mw' hmem => hpre mw' (List.mem_cons_of_mem m hmem)
    rw [List.cons_append]
    by_cases ha : mwApplies m pathname
    · have hne : m.ret ≠ JsValue.vBool false := hpre m (List.mem_cons_self m pre') ha
      have hbeq : (m.ret == JsValue.vBool false) = false := by
        rw [beq_eq_false_iff_ne]; exact hne
      rw [show runMiddlewares (m :: (pre' ++ mw :: post)) pathname i =
          (if mwApplies m pathname then
            (if m.ret == JsValue.vBool false then ([Event.mwRun i], true)
             else
              (Event.mwRun i ::
                  (runMiddlewares (pre' ++ mw :: post) pathname (i + 1)).1,
                (runMiddlewares (pre' ++ mw :: post) pathname (i + 1)).2))
           else runMiddlewares (pre' ++ mw :: post) pathname (i + 1)) from rfl]
      rw [show runMiddlewares (m :: pre') pathname i =
          (if mwApplies m pathname then
            (if m.ret == JsValue.vBool false then ([Event.mwRun i], true)
             else
              (Event.mwRun i :: (runMiddlewares pre' pathname (i + 1)).1,
                (runMiddlewares pre' pathname (i + 1)).2))
           else runMiddlewares pre' pathname (i + 1)) from rfl]
      simp only [ha, if_true, hbeq, Bool.false_eq_true, if_false]
      rw [ih (i + 1) hihyp]
      simp only [List.cons_append, List.length_cons]
      rw [show i + 1 + pre'.length = i + (pre'.length + 1) from by omega]
    · have ha' : mwApplies m pathname = false := by simpa using ha
      rw [show runMiddlewares (m :: (pre' ++ mw :: post)) pathname i =
          (if mwApplies m pathname then
            (if m.ret == JsValue.vBool false then ([Event.mwRun i], true)
             else
              (Event.mwRun i ::
                  (runMiddlewares (pre' ++ mw :: post) pathname (i + 1)).1,
                (runMiddlewares (pre' ++ mw :: post) pathname (i + 1)).2))
           else runMiddlewares (pre' ++ mw :: post) pathname (i + 1)) from rfl]
      rw [show runMiddlewares (m :: pre') pathname i =
          (if mwApplies m pathname then
            (if m.ret == JsValue.vBool false then ([Event.mwRun i], true)
             else
              (Event.mwRun i :: (runMiddlewares pre' pathname (i + 1)).1,
                (runMiddlewares pre' pathname (i + 1)).2))
           else runMiddlewares pre' pathname (i + 1)) from rfl]
      simp only [ha', Bool.false_eq_true, if_false]
      rw [ih (i + 1) hihyp]
      simp only [List.length_cons]
      rw [show i + 1 + pre'.length = i + (pre'.length + 1) from by omega]

/-- When no applicable middleware returns false, the dispatch reaches
the match phase: the trace is the middleware events followed by the
post-middleware phase. -/
theorem handle_no_abort (r : Router) (method pathname : String)
    (hall : ∀ mw ∈ r.middlewares, mwApplies mw pathname = true →
      mw.ret ≠ JsValue.vBool false) :
    r.handle method pathname =
      (runMiddlewares r.middlewares pathname 0).1 ++
        dispatchRoute r method pathname := by
  have hab : (runMiddlewares r.middlewares pathname 0).2 = false := by
    rw [← Bool.not_eq_true]
    intro hx
    obtain ⟨mw, hmem, hap, hret⟩ := (runMiddlewares_abort_iff _ _ _).mp hx
    exact hall mw hmem hap hret
  dsimp only [Router.handle]
  rw [hab]
  rfl

/-! ## Claim C5 -/

/-- C5: a middleware whose pattern matches the path and which returns
exactly the boolean false stops the dispatch at once.  Decomposing the
middleware list at the first such entry (an applicable false-returning
middleware preceded by no other), the trace is pinned exactly: the
events of the applicable middlewares before it, then its own event, and
nothing else — no later middleware runs, and since every trace event is
a middleware execution, no param hook, no route handler and no 404
response occurs.  When no applicable middleware returns exactly false
(any other value, or none, continues), the dispatch proceeds to the
match phase after the middleware events. -/
theorem C5_false_short_circuits (r : Router) (method pathname : String) :
    (∀ pre mw post, r.middlewares = pre ++ mw :: post →
      mwApplies mw pathname = true → mw.ret = JsValue.vBool false →
      (∀ mw' ∈ pre, mwApplies mw' pathname = true →
        mw'.ret ≠ JsValue.vBool false) →
      r.handle method pathname =
        (runMiddlewares pre pathname 0).1 ++ [Event.mwRun pre.length] ∧
      ∀ e ∈ r.handle method pathname, ∃ j, e = Event.mwRun j) ∧
    ((∀ mw ∈ r.middlewares, mwApplies mw pathname = true →
        mw.ret ≠ JsValue.vBool false) →
      r.handle method pathname =
        (runMiddlewares r.middlewares pathname 0).1 ++
          dispatchRoute r method pathname) := by
  refine ⟨fun pre mw post hsplit hap hret hpre => ?_,
    handle_no_abort r method pathname⟩
  have htr : runMiddlewares r.middlewares pathname 0 =
      ((runMiddlewares pre pathname 0).1 ++ [Event.mwRun (0 + pre.length)], true) := by
    rw [hsplit]
    exact runMiddlewares_abort_split pre mw post pathname 0 hap hret hpre
  have htrace : r.handle method pathname =
      (runMiddlewares pre pathname 0).1 ++ [Event.mwRun pre.length] := by
    dsimp only [Router.handle]
    rw [htr]
    simp
  refine ⟨htrace, fun e he => ?_⟩
  rw [htrace] at he
  rcases List.mem_append.mp he with hx | hx
  · exact runMiddlewares_events pre pathname 0 e hx
  · exact ⟨pre.length, by simpa using hx⟩

/-- Witness for `C5_false_short_circuits`: with three catch-all
middlewares — one returning undefined, one returning false, one
after it — the trace holds exactly the first two events (the third
middleware, the hooks, the handler and the 404 never run); and with
only the undefined-returning middleware the dispatch continues to the
match phase. -/
theorem C5_false_short_circuits_witness :
    ((Router.mk [("OPTIONS:/x", ⟨5, [], [Tok.lit '/', Tok.lit 'x']⟩)]
        [⟨"/*", JsValue.vUndefined⟩, ⟨"/*", JsValue.vBool false⟩,
         ⟨"/*", JsValue.vStr "late"⟩] []).handle "OPTIONS" "/x" =
      (runMiddlewares [⟨"/*", JsValue.vUndefined⟩] "/x" 0).1 ++
        [Event.mwRun 1] ∧
     ∀ e ∈ (Router.mk [("OPTIONS:/x", ⟨5, [], [Tok.lit '/', Tok.lit 'x']⟩)]
        [⟨"/*", JsValue.vUndefined⟩, ⟨"/*", JsValue.vBool false⟩,
         ⟨"/*", JsValue.vStr "late"⟩] []).handle "OPTIONS" "/x",
       ∃ j, e = Event.mwRun j) ∧
    (Router.mk [("OPTIONS:/x", ⟨5, [], [Tok.lit '/', Tok.lit 'x']⟩)]
        [⟨"/*", JsValue.vUndefined⟩] []).handle "OPTIONS" "/x" =
      (runMiddlewares [⟨"/*", JsValue.vUndefined⟩] "/x" 0).1 ++
        dispatchRoute (Router.mk [("OPTIONS:/x", ⟨5, [], [Tok.lit '/', Tok.lit 'x']⟩)]
          [⟨"/*", JsValue.vUndefined⟩] []) "OPTIONS" "/x" :=
  ⟨(C5_false_short_circuits _ "OPTIONS" "/x").1
      [⟨"/*", JsValue.vUndefined⟩] ⟨"/*", JsValue.vBool false⟩
      [⟨"/*", JsValue.vStr "late"⟩] rfl (by decide) rfl (by decide),
   (C5_false_short_circuits _ "OPTIONS" "/x").2 (by decide)⟩

/-! ## Claim C6 -/

/-- A character that `JSON.stringify` emits verbatim inside a string:
not a quote, not a backslash, not a control character. -/
def jsonPlain (c : Char) : Bool :=
  c != '"' && c != '\\' && decide (32 ≤ c.toNat)

/-- Plain characters are not escaped. -/
theorem jsonEscapeChar_plain (c : Char) (h : jsonPlain c = true) :
    jsonEscapeChar c = [c] := by
  simp only [jsonPlain, Bool.and_eq_true, bne_iff_ne, ne_eq, decide_eq_true_eq] at h
  obtain ⟨⟨hq, hb⟩, hc⟩ := h
  have hq' : (c == '"') = false := by rw [beq_eq_false_iff_ne]; exact hq
  have hb' : (c == '\\') = false := by rw [beq_eq_false_iff_ne]; exact hb
  have h8 : (c == '\x08') = false := by
    rw [beq_eq_false_iff_ne]; rintro rfl; exact absurd hc (by decide)
  have h9 : (c == '\x09') = false := by
    rw [beq_eq_false_iff_ne]; rintro rfl; exact absurd hc (by decide)
  have ha : (c == '\x0a') = false := by
    rw [beq_eq_false_iff_ne]; rintro rfl; exact absurd hc (by decide)
  have hf : (c == '\x0c') = false := by
    rw [beq_eq_false_iff_ne]; rintro rfl; exact absurd hc (by decide)
  have hd : (c == '\x0d') = false := by
    rw [beq_eq_false_iff_ne]; rintro rfl; exact absurd hc (by decide)
  have hlt : ¬ c.toNat < 32 := by omega
  simp [jsonEscapeChar, hq', hb', h8, h9, ha, hf, hd, hlt]

/-- A string of plain characters round-trips through the escaping pass. -/
theorem flatMap_jsonEscape_plain (l : List Char) (h : ∀ c ∈ l, jsonPlain c = true) :
    l.flatMap jsonEscapeChar = l := by
  induction l with
  | nil => rfl
  | cons c rest ih =>
    rw [List.flatMap_cons, jsonEscapeChar_plain c (h c (by simp)),
      ih (fun d hd => h d (by simp [hd]))]
    rfl

/-- For a pathname of plain characters, the synthesized 404 body is
exactly the raw template with the pathname substituted. -/
theorem notFoundBody_plain (pathname : String)
    (h : ∀ c ∈ pathname.data, jsonPlain c = true) :
    notFoundBody pathname =
      "\x7b\"error\":\"Not Found\",\"message\":\"Route " ++ pathname ++
        " not found\"\x7d" := by
  obtain ⟨l⟩ := pathname
  show String.mk _ = String.mk _
  dsimp only [notFoundBody, jsonQuote]
  have hdata : ("Route " ++ String.mk l ++ " not found").data =
      "Route ".data ++ l ++ " not found".data := rfl
  rw [hdata, List.flatMap_append, List.flatMap_append]
  rw [flatMap_jsonEscape_plain "Route ".data (by decide)]
  rw [flatMap_jsonEscape_plain l h]
  rw [flatMap_jsonEscape_plain " not found".data (by decide)]
  simp

/-- C6: a request matching no route (with the pipeline not aborted)
produces, after the middleware events, exactly one response event:
status 404, content type application/json, and body exactly the JSON
object with field order error then message, the message embedding the
raw request path.  (Stated for pathnames whose characters JSON emits
verbatim; others are escaped by stringify.) -/
theorem C6_not_found_response (r : Router) (method pathname : String)
    (hnoabort : ∀ mw ∈ r.middlewares, mwApplies mw pathname = true →
      mw.ret ≠ JsValue.vBool false)
    (hnomatch : r.findMatch method pathname = none)
    (hplain : ∀ c ∈ pathname.data, jsonPlain c = true) :
    r.handle method pathname =
      (runMiddlewares r.middlewares pathname 0).1 ++
        [Event.respond404 404 "application/json"
          ("\x7b\"error\":\"Not Found\",\"message\":\"Route " ++ pathname ++
            " not found\"\x7d")] := by
  rw [handle_no_abort r method pathname hnoabort]
  dsimp only [dispatchRoute]
  rw [hnomatch, notFoundBody_plain pathname hplain]

/-- Witness for `C6_not_found_response`: GET /nope on an empty router. -/
theorem C6_not_found_response_witness :
    (Router.mk [] [] []).handle "GET" "/nope" =
      (runMiddlewares [] "/nope" 0).1 ++
        [Event.respond404 404 "application/json"
          "\x7b\"error\":\"Not Found\",\"message\":\"Route /nope not found\"\x7d"] :=
  C6_not_found_response (Router.mk [] [] []) "GET" "/nope"
    (by decide) (by rfl) (by decide)

/-! ## Claim C7 -/

/-- Recognizer for a hook event of a given parameter name. -/
def isHookEventFor (name : String) : Event → Bool
  | .hookRun n _ => n == name
  | _ => false

/-- Unfolding of the hook loop over the first hook-table entry. -/
theorem runHooks_cons (hk : String × Nat) (rest : List (String × Nat))
    (params : List (String × Option String)) :
    runHooks (hk :: rest) params =
      (match truthyLookup params hk.1 with
       | some v => Event.hookRun hk.1 v :: runHooks rest params
       | none => runHooks rest params) := by
  dsimp only [runHooks, List.filterMap_cons]
  cases truthyLookup params hk.1 <;> rfl

/-- A name absent from the hook table produces no hook event. -/
theorem runHooks_count_zero (hooks : List (String × Nat))
    (params : List (String × Option String)) (name : String)
    (h : name ∉ hooks.map Prod.fst) :
    ((runHooks hooks params).filter (isHookEventFor name)).length = 0 := by
  induction hooks with
  | nil => rfl
  | cons hk rest ih =>
    simp only [List.map_cons, List.mem_cons, not_or] at h
    obtain ⟨hne, hrest⟩ := h
    rw [runHooks_cons]
    cases htr : truthyLookup params hk.1 with
    | none => exact ih hrest
    | some v =>
      rw [List.filter_cons]
      have hev : isHookEventFor name (Event.hookRun hk.1 v) = false := by
        simp only [isHookEventFor, beq_eq_false_iff_ne]
        exact fun hx => hne hx.symm
      simp only [hev, Bool.false_eq_true, if_false]
      exact ih hrest

/-- A registered hook fires exactly once when its name's parameter
value is truthy, and never otherwise. -/
theorem runHooks_count (hooks : List (String × Nat))
    (params : List (String × Option String)) (name : String)
    (hnodup : (hooks.map Prod.fst).Nodup) (hmem : name ∈ hooks.map Prod.fst) :
    ((runHooks hooks params).filter (isHookEventFor name)).length =
      if (truthyLookup params name).isSome then 1 else 0 := by
  induction hooks with
  | nil => simp at hmem
  | cons hk rest ih =>
    rw [List.map_cons, List.nodup_cons] at hnodup
    obtain ⟨hni, hnodup'⟩ := hnodup
    rw [runHooks_cons]
    by_cases heq : hk.1 = name
    · subst heq
      cases htr : truthyLookup params hk.1 with
      | none =>
        simp only [htr, Option.isSome_none, Bool.false_eq_true, if_false]
        exact runHooks_count_zero rest params hk.1 hni
      | some v =>
        simp only [htr, Option.isSome_some, if_true]
        rw [List.filter_cons]
        have hev : isHookEventFor hk.1 (Event.hookRun hk.1 v) = true := by
          simp [isHookEventFor]
        simp only [hev, if_true, List.length_cons]
        rw [runHooks_count_zero rest params hk.1 hni]
    · have hmem' : name ∈ rest.map Prod.fst := by
        rcases List.mem_cons.mp hmem with h | h
        · exact absurd h.symm heq
        · exact h
      cases htr : truthyLookup params hk.1 with
      | none => exact ih hnodup' hmem'
      | some v =>
        rw [List.filter_cons]
        have hev : isHookEventFor name (Event.hookRun hk.1 v) = false := by
          simp only [isHookEventFor, beq_eq_false_iff_ne]
          exact fun hx => heq hx
        simp only [hev, Bool.false_eq_true, if_false]
        exact ih hnodup' hmem'

/-- Middleware events are not hook events. -/
theorem filter_hook_events_of_mw (evs : List Event) (name : String)
    (hmw : ∀ e ∈ evs, ∃ j, e = Event.mwRun j) :
    (evs.filter (isHookEventFor name)).length = 0 := by
  rw [List.length_eq_zero]
  rw [List.filter_eq_nil_iff]
  intro e he
  obtain ⟨j, rfl⟩ := hmw e he
  simp [isHookEventFor]

/-- C7 is false on the code as stated: the source guards each hook with
the truthiness of `match.params[name]`, and a parameter name can be
bound in the mapping with the JS value undefined (when the declared
name list is longer than the matcher's capture list).  Here route
GET /:x/:-a is registered with a hook for the name "-a": dispatching
GET /v/:-a matches the route, the params object binds "-a" (to
undefined, `objGet` answers `some none`), the hook table contains "-a",
yet the trace runs no hook at all — the claim requires the hook to fire
for every bound name. -/
theorem C7_counterexample :
    (((Router.mk [] [] []).add "GET" "/:x/:-a" 3).toOption.map (fun r =>
      (((r.param "-a" 9).findMatch "GET" "/v/:-a").map
          (fun m => objGet m.params "-a"),
        mapGet (r.param "-a" 9).paramHandlers "-a",
        (r.param "-a" 9).handle "GET" "/v/:-a"))) =
      some (some (some none), some 9, [Event.handlerRun 3]) := by
  rfl

/-- C7 (amended): for a dispatched request that matches a route (with
the pipeline not aborted), a hook registered for a name fires exactly
once if and only if the name is bound in the parameter mapping to a
truthy value — a defined, non-empty string; the hooks run between the
complete middleware phase and the route handler, in hook-table order
(the hook events are the registration-order traversal of the hook
table). -/
theorem C7_hooks_fire_iff_truthy (r : Router) (method pathname : String)
    (m : MatchResult) (name : String)
    (hnodup : (r.paramHandlers.map Prod.fst).Nodup)
    (hnoabort : ∀ mw ∈ r.middlewares, mwApplies mw pathname = true →
      mw.ret ≠ JsValue.vBool false)
    (hmatch : r.findMatch method pathname = some m)
    (hname : name ∈ r.paramHandlers.map Prod.fst) :
    r.handle method pathname =
      (runMiddlewares r.middlewares pathname 0).1 ++
        (runHooks r.paramHandlers m.params ++ [Event.handlerRun m.handler]) ∧
    ((r.handle method pathname).filter (isHookEventFor name)).length =
      (if (truthyLookup m.params name).isSome then 1 else 0) := by
  have h1 : r.handle method pathname =
      (runMiddlewares r.middlewares pathname 0).1 ++
        (runHooks r.paramHandlers m.params ++ [Event.handlerRun m.handler]) := by
    rw [handle_no_abort r method pathname hnoabort]
    dsimp only [dispatchRoute]
    rw [hmatch]
  refine ⟨h1, ?_⟩
  rw [h1, List.filter_append, List.filter_append, List.length_append,
    List.length_append]
  rw [filter_hook_events_of_mw _ name (runMiddlewares_events _ _ _)]
  rw [runHooks_count r.paramHandlers m.params name hnodup hname]
  have : ([Event.handlerRun m.handler].filter (isHookEventFor name)).length = 0 := by
    simp [isHookEventFor]
  rw [this]
  omega

/-- Witness for `C7_hooks_fire_iff_truthy`: route GET /users/:id, a
middleware returning null, and a hook for "id"; GET /users/42 fires the
hook exactly once, after the middleware and before the handler. -/
theorem C7_hooks_fire_iff_truthy_witness :
    (Router.mk [("GET:/users/:id", ⟨5, ["id"], [Tok.lit '/', Tok.lit 'u',
        Tok.lit 's', Tok.lit 'e', Tok.lit 'r', Tok.lit 's', Tok.lit '/',
        Tok.group]⟩)] [⟨"/*", JsValue.vNull⟩] [("id", 9)]).handle
        "GET" "/users/42" =
      (runMiddlewares [⟨"/*", JsValue.vNull⟩] "/users/42" 0).1 ++
        (runHooks [("id", 9)] [("id", some "42")] ++ [Event.handlerRun 5]) ∧
    (((Router.mk [("GET:/users/:id", ⟨5, ["id"], [Tok.lit '/', Tok.lit 'u',
        Tok.lit 's', Tok.lit 'e', Tok.lit 'r', Tok.lit 's', Tok.lit '/',
        Tok.group]⟩)] [⟨"/*", JsValue.vNull⟩] [("id", 9)]).handle
        "GET" "/users/42").filter (isHookEventFor "id")).length =
      (if (truthyLookup [("id", some "42")] "id").isSome then 1 else 0) :=
  C7_hooks_fire_iff_truthy _ "GET" "/users/42" ⟨5, [("id", some "42")]⟩ "id"
    (by decide) (by decide) (by rfl) (by decide)

/-! ## Claim C8 -/

/-- C8 is false on the code: Dispatch never normalizes the request
path.  With the single route GET /users, the request GET /users
resolves to the handler but GET /users/ — differing only by the
trailing slash that normalization strips — matches nothing and receives
the 404 fallback. -/
theorem C8_counterexample :
    (((Router.mk [] [] []).add "GET" "/users" 5).toOption.map (fun r =>
      (r.handle "GET" "/users", r.handle "GET" "/users/"))) =
      some ([Event.handlerRun 5],
        [Event.respond404 404 "application/json"
          "\x7b\"error\":\"Not Found\",\"message\":\"Route /users/ not found\"\x7d"]) := by
  rfl

/-- C8 (amended): Dispatch matches the raw parsed pathname without
normalizing it; a request path differing from a registered route's
normalized path only by a trailing slash is not resolved to that route
but falls through to the 404 response. -/
theorem C8_no_request_normalization (h : Nat) (r : Router)
    (hreg : (Router.mk [] [] []).add "GET" "/users" h = .ok r) :
    r.handle "GET" "/users" = [Event.handlerRun h] ∧
    r.handle "GET" "/users/" =
      [Event.respond404 404 "application/json"
        "\x7b\"error\":\"Not Found\",\"message\":\"Route /users/ not found\"\x7d"] := by
  injection hreg with h'
  subst h'
  exact ⟨rfl, rfl⟩

/-- Witness for `C8_no_request_normalization` at handler 5. -/
theorem C8_no_request_normalization_witness :
    (Router.mk [("GET:/users", ⟨5, [], [Tok.lit '/', Tok.lit 'u', Tok.lit 's',
        Tok.lit 'e', Tok.lit 'r', Tok.lit 's']⟩)] [] []).handle "GET" "/users" =
      [Event.handlerRun 5] ∧
    (Router.mk [("GET:/users", ⟨5, [], [Tok.lit '/', Tok.lit 'u', Tok.lit 's',
        Tok.lit 'e', Tok.lit 'r', Tok.lit 's']⟩)] [] []).handle "GET" "/users/" =
      [Event.respond404 404 "application/json"
        "\x7b\"error\":\"Not Found\",\"message\":\"Route /users/ not found\"\x7d"] :=
  C8_no_request_normalization 5 _ (by rfl)

/-! ## Claim C10 -/

/-- Every substring captured by a successful token match is non-empty
and contains no slash: captures arise only from group tokens, which
consume between one and the length of the pending non-slash run. -/
theorem tokMatch_caps (ts : List Tok) (s : List Char) (caps : List (List Char))
    (h : tokMatch ts s = some caps) :
    ∀ cap ∈ caps, cap ≠ [] ∧ ∀ c ∈ cap, c ≠ '/' := by
  induction ts generalizing s caps with
  | nil =>
    dsimp only [tokMatch] at h
    split at h
    · injection h with h
      subst h
      intro cap hcap
      exact absurd hcap (by simp)
    · exact absurd h (by simp)
  | cons t ts ih =>
    cases t with
    | lit c =>
      cases s with
      | nil => exact absurd h (by simp [tokMatch])
      | cons x xs =>
        rw [show tokMatch (Tok.lit c :: ts) (x :: xs) =
          (if (x == c) = true then tokMatch ts xs else none) from rfl] at h
        split at h
        · exact ih xs caps h
        · exact absurd h (by simp)
    | group =>
      dsimp only [tokMatch] at h
      obtain ⟨k, hkmem, hk⟩ := List.exists_of_findSome?_eq_some h
      rw [Option.map_eq_some'] at hk
      obtain ⟨caps', hmatch', rfl⟩ := hk
      have hkb : 1 ≤ k ∧ k ≤ (s.takeWhile (fun c => c != '/')).length := by
        simp only [List.mem_map, List.mem_reverse, List.mem_range] at hkmem
        obtain ⟨j, hj, rfl⟩ := hkmem
        omega
      intro cap hcap
      rcases List.mem_cons.mp hcap with rfl | hcap'
      · constructor
        · rw [ne_eq, List.take_eq_nil_iff]
          push_neg
          refine ⟨by omega, ?_⟩
          rintro rfl
          simp at hkb
          omega
        · have hpre : s.take k = (s.takeWhile (fun c => c != '/')).take k := by
            obtain ⟨t, ht⟩ := List.takeWhile_prefix (l := s) (fun c => c != '/')
            nth_rewrite 1 [← ht]
            rw [List.take_append_of_le_length hkb.2]
          intro c hc
          rw [hpre] at hc
          have hmem2 := List.take_subset k _ hc
          have := List.mem_takeWhile_imp hmem2
          simpa using this
      · exact ih _ _ hmatch' cap hcap'
    | wild =>
      dsimp only [tokMatch] at h
      obtain ⟨k, hkmem, hk⟩ := List.exists_of_findSome?_eq_some h
      exact ih _ _ hk

/-- C10 is false on the code as stated: a route whose declared
parameter list is longer than its matcher's capture list binds the
extra name to the JS value undefined, which is not a non-empty string.
Route GET /:x/: declares names "x" and "" but compiles to a single
capturing group; the pattern-scan match of "/bar/:" yields the mapping
x ↦ "bar", "" ↦ undefined. -/
theorem C10_counterexample :
    (((Router.mk [] [] []).add "GET" "/:x/:" 4).toOption.map (fun r =>
      (r.findMatch "GET" "/bar/:").map (fun m => m.params))) =
      some (some [("x", some "bar"), ("", none)]) := by
  rfl

/-- C10 (amended): in every match returned by the pattern-scan path of
Match, every parameter value that is a defined string (some capture was
available for its position) is non-empty and contains no slash; only
the JS-undefined values of surplus parameter names fall outside this.
(The matcher model covers route patterns made of regex-literal
characters.) -/
theorem C10_defined_values_nonempty (r : Router) (method pathname : String)
    (m : MatchResult)
    (hmiss : mapGet r.routes (toUpperCase method ++ ":" ++ pathname) = none)
    (hm : r.findMatch method pathname = some m) :
    ∀ nv ∈ m.params, ∀ v : String, nv.2 = some v →
      v ≠ "" ∧ ∀ c ∈ v.data, c ≠ '/' := by
  dsimp only [Router.findMatch] at hm
  rw [hmiss] at hm
  obtain ⟨kr, hkr, hf⟩ := List.exists_of_findSome?_eq_some hm
  split at hf
  · cases htok : tokMatch kr.2.regex pathname.data with
    | none => rw [htok] at hf; exact absurd hf (by simp)
    | some caps =>
      rw [htok] at hf
      injection hf with hf
      subst hf
      intro nv hnv v hv
      dsimp only [buildParams] at hnv
      obtain ⟨⟨i, name⟩, hmem, rfl⟩ := List.mem_map.mp hnv
      simp only at hv
      rw [Option.map_eq_some'] at hv
      obtain ⟨cap, hcapi, rfl⟩ := hv
      have hcap : cap ∈ caps := by
        obtain ⟨hlt, heq⟩ := List.getElem?_eq_some.mp hcapi
        exact heq ▸ List.getElem_mem hlt
      have hprop := tokMatch_caps _ _ _ htok cap hcap
      refine ⟨?_, hprop.2⟩
      intro hempty
      exact hprop.1 (by simpa using congrArg String.data hempty)
  · exact absurd hf (by simp)

/-- Witness for `C10_defined_values_nonempty`: the value "42" captured
when GET /users/42 matches route GET /users/:id is non-empty and
slash-free. -/
theorem C10_defined_values_nonempty_witness :
    "42" ≠ "" ∧ ∀ c ∈ ("42" : String).data, c ≠ '/' :=
  C10_defined_values_nonempty
    (Router.mk [("GET:/users/:id", ⟨5, ["id"], [Tok.lit '/', Tok.lit 'u',
      Tok.lit 's', Tok.lit 'e', Tok.lit 'r', Tok.lit 's', Tok.lit '/',
      Tok.group]⟩)] [] [])
    "GET" "/users/42" ⟨5, [("id", some "42")]⟩ (by rfl) (by rfl)
    ("id", some "42") (by decide) "42" rfl

/-! ## Claim C9 -/

/-- Characters on which the token model of the compiled regex is
faithful to the JS regex (regex-literal characters plus the slash,
colon, star and hyphen handled explicitly); route paths containing
regex metacharacters such as parentheses are outside the modelled
fragment. -/
def routeSafeChar (c : Char) : Bool :=
  isWordChar c || c == '/' || c == ':' || c == '*' || c == '-'

/-- A path within the modelled fragment. -/
def routeSafe (l : List Char) : Bool := l.all routeSafeChar

/-- Count of colon-initial segments of the remaining input, the flag
recording whether the current position starts a segment. -/
def colonCountAux : List Char → Bool → Nat
  | [], _ => 0
  | '/' :: rest, _ => colonCountAux rest true
  | ':' :: rest, true => 1 + colonCountAux rest false
  | _ :: rest, _ => colonCountAux rest false

/-- Every colon that starts a segment of the remaining input is
immediately followed by a word character. -/
def goodColonsAux : List Char → Bool → Bool
  | [], _ => true
  | '/' :: rest, _ => goodColonsAux rest true
  | ':' :: rest, true =>
    (match rest.head? with
     | some c => isWordChar c
     | none => false) && goodColonsAux rest false
  | _ :: rest, _ => goodColonsAux rest false

/-- Splitting never returns the empty list of segments. -/
theorem jsSplit_ne_nil (sep : Char) (l : List Char) : jsSplit sep l ≠ [] := by
  cases l with
  | nil => simp [jsSplit]
  | cons c rest => by_cases h : c == sep <;> simp [jsSplit, h]

/-- Unfolding of the split at a separator. -/
theorem jsSplit_cons_eq (sep : Char) (rest : List Char) :
    jsSplit sep (sep :: rest) = [] :: jsSplit sep rest := by
  simp [jsSplit]

/-- Unfolding of the split at a non-separator. -/
theorem jsSplit_cons_ne (sep c : Char) (rest : List Char) (h : (c == sep) = false) :
    jsSplit sep (c :: rest) =
      (c :: (jsSplit sep rest).headD []) :: (jsSplit sep rest).tail := by
  simp [jsSplit, h]

/-- Counting for a non-slash non-colon head: no segment is opened or
counted. -/
theorem colonCountAux_cons_other (c : Char) (rest : List Char) (b : Bool)
    (h1 : c ≠ '/') (h2 : c ≠ ':') :
    colonCountAux (c :: rest) b = colonCountAux rest false := by
  cases b <;> simp [colonCountAux, h1, h2]

/-- Goodness for a non-slash non-colon head. -/
theorem goodColonsAux_cons_other (c : Char) (rest : List Char) (b : Bool)
    (h1 : c ≠ '/') (h2 : c ≠ ':') :
    goodColonsAux (c :: rest) b = goodColonsAux rest false := by
  cases b <;> simp [goodColonsAux, h1, h2]

/-- The positional colon count agrees with the split-based count the
source's parameter extraction performs: with the flag set it counts the
colon-initial segments, with the flag cleared it ignores the (already
begun) first segment. -/
theorem colonCountAux_eq (l : List Char) :
    colonCountAux l true =
      ((jsSplit '/' l).filter (fun s => s.head? == some ':')).length ∧
    colonCountAux l false =
      ((jsSplit '/' l).tail.filter (fun s => s.head? == some ':')).length := by
  induction l with
  | nil => exact ⟨rfl, rfl⟩
  | cons c rest ih =>
    by_cases hc : c = '/'
    · subst hc
      rw [jsSplit_cons_eq]
      refine ⟨?_, ?_⟩
      · rw [show colonCountAux ('/' :: rest) true = colonCountAux rest true from rfl,
          ih.1, List.filter_cons]
        simp
      · rw [show colonCountAux ('/' :: rest) false = colonCountAux rest true from rfl,
          ih.1]
        rfl
    · have hc' : (c == '/') = false := by rw [beq_eq_false_iff_ne]; exact hc
      rw [jsSplit_cons_ne '/' c rest hc']
      obtain ⟨h0, t0, hsplit⟩ : ∃ h0 t0, jsSplit '/' rest = h0 :: t0 := by
        rcases e : jsSplit '/' rest with _ | ⟨h0, t0⟩
        · exact absurd e (jsSplit_ne_nil '/' rest)
        · exact ⟨h0, t0, rfl⟩
      rw [hsplit]
      simp only [List.headD_cons, List.tail_cons]
      have htail := ih.2
      rw [hsplit, List.tail_cons] at htail
      refine ⟨?_, ?_⟩
      · by_cases hcol : c = ':'
        · subst hcol
          rw [show colonCountAux (':' :: rest) true = 1 + colonCountAux rest false
              from rfl, htail, List.filter_cons]
          simp
          omega
        · rw [colonCountAux_cons_other c rest true hc hcol, htail, List.filter_cons]
          simp [hcol]
      · have hstep : colonCountAux (c :: rest) false = colonCountAux rest false := by
          by_cases hcol : c = ':'
          · subst hcol; rfl
          · exact colonCountAux_cons_other c rest false hc hcol
        rw [hstep, htail]

/-- The parameter-name count is the colon-initial segment count. -/
theorem extractParamsChars_length (l : List Char) :
    (extractParamsChars l).length = colonCountAux l true := by
  rw [extractParamsChars, List.length_map]
  exact (colonCountAux_eq l).1.symm

/-- Word characters never affect the flag-cleared colon count. -/
theorem colonCountAux_dropWhile_word (l : List Char) :
    colonCountAux (l.dropWhile isWordChar) false = colonCountAux l false := by
  induction l with
  | nil => rfl
  | cons c rest ih =>
    by_cases hw : isWordChar c
    · have h1 : c ≠ '/' := by rintro rfl; simp [isWordChar] at hw
      have h2 : c ≠ ':' := by rintro rfl; simp [isWordChar] at hw
      rw [List.dropWhile_cons_of_pos hw, ih,
        colonCountAux_cons_other c rest false h1 h2]
    · rw [List.dropWhile_cons_of_neg hw]

/-- Word characters never affect the flag-cleared goodness check. -/
theorem goodColonsAux_dropWhile_word (l : List Char) :
    goodColonsAux (l.dropWhile isWordChar) false = goodColonsAux l false := by
  induction l with
  | nil => rfl
  | cons c rest ih =>
    by_cases hw : isWordChar c
    · have h1 : c ≠ '/' := by rintro rfl; simp [isWordChar] at hw
      have h2 : c ≠ ':' := by rintro rfl; simp [isWordChar] at hw
      rw [List.dropWhile_cons_of_pos hw, ih,
        goodColonsAux_cons_other c rest false h1 h2]
    · rw [List.dropWhile_cons_of_neg hw]

/-- Safety restricts to any sublist, in particular to suffixes produced
by `dropWhile` and `tail`. -/
theorem routeSafe_sublist (l l' : List Char) (hsub : l'.Sublist l)
    (h : routeSafe l = true) : routeSafe l' = true := by
  rw [routeSafe, List.all_eq_true] at h ⊢
  exact fun c hc => h c (hsub.subset hc)

/-- Group counting over tokens, unfolded. -/
theorem countGroups_cons_lit (c : Char) (ts : List Tok) :
    countGroups (Tok.lit c :: ts) = countGroups ts := by
  simp [countGroups, List.filter_cons]

/-- Group counting over tokens, unfolded. -/
theorem countGroups_cons_group (ts : List Tok) :
    countGroups (Tok.group :: ts) = countGroups ts + 1 := by
  simp [countGroups, List.filter_cons]

/-- Group counting over tokens, unfolded. -/
theorem countGroups_cons_wild (ts : List Tok) :
    countGroups (Tok.wild :: ts) = countGroups ts := by
  simp [countGroups, List.filter_cons]

/-- Main counting invariant: over the modelled character fragment, when
every segment-initial colon is followed by a word character, the
compiled matcher has exactly one capturing group per colon-initial
segment, in the same left-to-right order (the scan emits the group at
the segment position). -/
theorem countGroups_scanSpec (l : List Char) (b : Bool)
    (hsafe : routeSafe l = true) (hgood : goodColonsAux l b = true)
    (hb : b = true → l.head? ≠ some ':') :
    countGroups (scanSpec l) = colonCountAux l b := by
  generalize hn : l.length = n
  induction n using Nat.strong_induction_on generalizing l b with
  | _ n ih =>
  cases l with
  | nil => simp [scanSpec, countGroups, colonCountAux]
  | cons c rest =>
    have hsafe_rest : routeSafe rest = true :=
      routeSafe_sublist _ _ (List.sublist_cons_self c rest) hsafe
    by_cases hc : c = '/'
    · subst hc
      cases rest with
      | nil =>
        rw [show scanSpec ['/'] = [Tok.lit '/'] from by simp [scanSpec]]
        rfl
      | cons d rest' =>
        by_cases hd : d = ':'
        · subst hd
          cases rest' with
          | nil => simp [goodColonsAux] at hgood
          | cons e rest'' =>
            by_cases he : isWordChar e
            · have h1 : e ≠ '/' := by rintro rfl; simp [isWordChar] at he
              have h2 : e ≠ ':' := by rintro rfl; simp [isWordChar] at he
              rw [scanSpec_slash_colon_word e rest'' he, countGroups_cons_lit,
                countGroups_cons_group]
              have hgood' : goodColonsAux (rest''.dropWhile isWordChar) false = true := by
                rw [goodColonsAux_dropWhile_word]
                have : goodColonsAux ('/' :: ':' :: e :: rest'') b =
                    ((match (e :: rest'').head? with
                      | some c => isWordChar c
                      | none => false) && goodColonsAux (e :: rest'') false) := rfl
                rw [this] at hgood
                simp only [List.head?_cons, he, Bool.true_and] at hgood
                rw [goodColonsAux_cons_other e rest'' false h1 h2] at hgood
                exact hgood
              have hsafe' : routeSafe (rest''.dropWhile isWordChar) = true := by
                have h3 : routeSafe rest'' = true := by
                  have := routeSafe_sublist _ _ (List.sublist_cons_self e rest'')
                    (routeSafe_sublist _ _ (List.sublist_cons_self ':' (e :: rest''))
                      hsafe_rest)
                  exact this
                exact routeSafe_sublist _ _ (List.dropWhile_sublist isWordChar) h3
              have hlt : (rest''.dropWhile isWordChar).length < n := by
                have := (List.dropWhile_sublist (l := rest'') isWordChar).length_le
                simp only [List.length_cons] at hn; omega
              rw [ih _ hlt _ false hsafe' hgood' (by simp) rfl]
              rw [show colonCountAux ('/' :: ':' :: e :: rest'') b =
                  1 + colonCountAux (e :: rest'') false from rfl]
              rw [← colonCountAux_dropWhile_word (e :: rest''),
                List.dropWhile_cons_of_pos he]
              omega
            · exfalso
              have : goodColonsAux ('/' :: ':' :: e :: rest'') b =
                  ((match (e :: rest'').head? with
                    | some c => isWordChar c
                    | none => false) && goodColonsAux (e :: rest'') false) := rfl
              rw [this] at hgood
              simp only [List.head?_cons, he, Bool.false_and] at hgood
              exact absurd hgood (by simp)
        · rw [scanSpec_slash_cons d rest' hd, countGroups_cons_lit]
          have hlt : (d :: rest').length < n := by
            simp only [List.length_cons] at hn ⊢; omega
          rw [ih _ hlt _ true hsafe_rest
            (by exact hgood) (fun _ => by simpa using hd) rfl]
          rfl
    · by_cases hs : c = '*'
      · subst hs
        rw [scanSpec_star, countGroups_cons_wild]
        have hlt : rest.length < n := by
          simp only [List.length_cons] at hn; omega
        have hgood' : goodColonsAux rest false = true := by
          rw [← goodColonsAux_cons_other '*' rest b (by decide) (by decide)]
          exact hgood
        rw [ih _ hlt _ false hsafe_rest hgood' (by simp) rfl]
        rw [colonCountAux_cons_other '*' rest b (by decide) (by decide)]
      · by_cases hcol : c = ':'
        · subst hcol
          cases b with
          | true => exact absurd (rfl : (':' :: rest).head? = some ':') (hb rfl)
          | false =>
            rw [scanSpec_cons ':' rest hc hs, countGroups_cons_lit]
            have hlt : rest.length < n := by
              simp only [List.length_cons] at hn; omega
            have hgood' : goodColonsAux rest false = true := hgood
            rw [ih _ hlt _ false hsafe_rest hgood' (by simp) rfl]
            rfl
        · rw [scanSpec_cons c rest hc hs, countGroups_cons_lit]
          have hlt : rest.length < n := by
            simp only [List.length_cons] at hn; omega
          have hgood' : goodColonsAux rest false = true := by
            rw [← goodColonsAux_cons_other c rest b hc hcol]
            exact hgood
          rw [ih _ hlt _ false hsafe_rest hgood' (by simp) rfl]
          rw [colonCountAux_cons_other c rest b hc hcol]

/-- C9 is false on the code as stated: the claim includes paths whose
colon segments are empty or start with a non-word character, but for
the route path /: the extracted name list has one entry (the empty
name) while the compiled matcher has no capturing group — the JS
replacement requires at least one word character after the colon. -/
theorem C9_counterexample :
    (extractParams (normalizePath "/:")).length = 1 ∧
    countGroups (pathToRegex (normalizePath "/:")) = 0 ∧
    (extractParams (normalizePath "/:")).length ≠
      countGroups (pathToRegex (normalizePath "/:")) := by
  refine ⟨rfl, rfl, by decide⟩

/-- C9 (amended): for every registered path within the modelled
character fragment in which every segment-initial colon is immediately
followed by a word character, the extracted parameter-name list has
exactly as many entries as the compiled matcher has capturing groups
(both produced left-to-right, so positional binding pairs the i-th
capture with the i-th name). -/
theorem C9_params_group_count (p : String)
    (hsafe : routeSafe (normalizePath p).data = true)
    (hgood : goodColonsAux (normalizePath p).data true = true) :
    (extractParams (normalizePath p)).length =
      countGroups (pathToRegex (normalizePath p)) := by
  rw [extractParams, List.length_map, extractParamsChars_length]
  rw [show pathToRegex (normalizePath p) = scanSpec (normalizePath p).data from by
    rw [pathToRegex, scanToks, scanM_s0_eq_scanSpec]]
  rw [countGroups_scanSpec (normalizePath p).data true hsafe hgood ?hb]
  case hb =>
    intro _
    rw [show (normalizePath p).data = normalizeChars p.data from rfl,
      head_normalizeChars p.data]
    simp

/-- Witness for `C9_params_group_count` at the route path /a/:x/b/:y. -/
theorem C9_params_group_count_witness :
    (extractParams (normalizePath "/a/:x/b/:y")).length =
      countGroups (pathToRegex (normalizePath "/a/:x/b/:y")) :=
  C9_params_group_count "/a/:x/b/:y" (by decide) (by decide)

end BareboneServer
